import Mathlib

/-!
A shallow embedding, in Lean 4, of the functional core of the SyllaBud
dashboard (source files `src/Home.py` and `src/pages/Courses.py`), together
with theorems settling the specification claims about that core.

The embedding keeps the Python structure: each Python function becomes a
Lean function of the same name (snake_case preserved), the session-state
`courses` dictionary becomes an insertion-ordered association list, and the
Python string operations used by the sources (`split`, `strip`,
`startswith`, `in`, `replace`, `lower`) are reimplemented over the
character list of a `String` with structural (fuel-based where needed)
recursion, so that every definition evaluates on concrete input by `decide`
or `rfl`.
-/

namespace SyllaBud

/-! ### Python string operations

These mirror the exact CPython semantics used by the sources: `split` with
a non-empty separator, `strip` (whitespace on both ends), `startswith`,
substring membership (`in`), `replace` (all non-overlapping occurrences,
left to right), `lower`, and single-character membership. -/

/-- Boolean prefix test on character lists. -/
def isPrefixL : List Char → List Char → Bool
  | [], _ => true
  | _ :: _, [] => false
  | a :: as, b :: bs => a == b && isPrefixL as bs

/-- Fuel-driven worker for `strSplitOn`: scans the text, cutting at each
occurrence of the (non-empty) separator. The fuel is at least the length of
the text, so it never runs out. -/
def splitFuel (sep : List Char) : Nat → List Char → List Char → List (List Char)
  | 0, s, acc => [acc.reverse ++ s]
  | fuel + 1, s, acc =>
    match s with
    | [] => [acc.reverse]
    | c :: cs =>
      if isPrefixL sep s then acc.reverse :: splitFuel sep fuel (s.drop sep.length) []
      else splitFuel sep fuel cs (c :: acc)

/-- Python `s.split(sep)` for a non-empty separator `sep`. -/
def strSplitOn (s sep : String) : List String :=
  (splitFuel sep.data (s.data.length + 1) s.data []).map String.mk

/-- Substring test on character lists. -/
def containsSubL (sub : List Char) : List Char → Bool
  | [] => sub.isEmpty
  | c :: cs => isPrefixL sub (c :: cs) || containsSubL sub cs

/-- Python `sub in s`. -/
def strContainsSub (s sub : String) : Bool :=
  containsSubL sub.data s.data

/-- Python `c in s` for a single character. -/
def strContainsChar (s : String) (c : Char) : Bool :=
  s.data.contains c

/-- Strip leading and trailing whitespace from a character list. -/
def stripL (l : List Char) : List Char :=
  ((l.dropWhile Char.isWhitespace).reverse.dropWhile Char.isWhitespace).reverse

/-- Python `s.strip()`. -/
def pyStrip (s : String) : String :=
  String.mk (stripL s.data)

/-- Python `s.startswith(p)`. -/
def pyStartsWith (s p : String) : Bool :=
  isPrefixL p.data s.data

/-- Fuel-driven worker for `pyReplace`. -/
def replaceFuel (pat rep : List Char) : Nat → List Char → List Char
  | 0, s => s
  | fuel + 1, s =>
    match s with
    | [] => []
    | c :: cs =>
      if isPrefixL pat s then rep ++ replaceFuel pat rep fuel (s.drop pat.length)
      else c :: replaceFuel pat rep fuel cs

/-- Python `s.replace(pat, rep)` for a non-empty `pat`: replaces every
non-overlapping occurrence, scanning left to right. -/
def pyReplace (s pat rep : String) : String :=
  String.mk (replaceFuel pat.data rep.data (s.data.length + 1) s.data)

/-- ASCII lower-casing of one character (Python `str.lower` on the
character set appearing in the sources). -/
def lowerChar (c : Char) : Char :=
  if 'A' ≤ c ∧ c ≤ 'Z' then Char.ofNat (c.toNat + 32) else c

/-- Python `s.lower()`. -/
def pyLower (s : String) : String :=
  String.mk (s.data.map lowerChar)

/-! ### Data model

The `courses` session dictionary maps a generated course id to a course
record; in `Courses.py:main` a fresh record carries the fields
`name`, `syllabus_text`, `analysis`, `file_uploaded`, `todos`,
`todo_states`, `weekly_schedule`, `analysis_complete`. -/

/-- One row of the parsed to-do table (`parse_todo_list`). -/
structure Todo where
  name : String
  weight : String
  due_date : String
deriving DecidableEq

/-- One row of the parsed weekly-schedule table (`parse_weekly_schedule`). -/
structure WeeklyEntry where
  week : String
  content : String
deriving DecidableEq

/-- A course record, with the fields initialised by `main` / populated by
`course_tab`. -/
structure Course where
  name : String
  syllabus_text : Option String
  analysis : Option String
  file_uploaded : Bool
  todos : List Todo
  todo_states : List (String × Bool)
  weekly_schedule : List WeeklyEntry
  analysis_complete : Bool
deriving DecidableEq

/-- Python `todo_states.get(k)` / `k in todo_states`: first binding of `k`
in the insertion-ordered mapping. -/
def statesGet (m : List (String × Bool)) (k : String) : Option Bool :=
  (m.find? (fun p => p.1 == k)).map (fun p => p.2)

/-- Python `todo_states.get(k, False)`. -/
def statesGetD (m : List (String × Bool)) (k : String) : Bool :=
  (statesGet m k).getD false

/-- Python `todo_states[k] = v`: update in place when the key exists
(keeping its position), append otherwise. -/
def statesSet (m : List (String × Bool)) (k : String) (v : Bool) : List (String × Bool) :=
  if (m.find? (fun p => p.1 == k)).isSome then
    m.map (fun p => if p.1 == k then (p.1, v) else p)
  else m ++ [(k, v)]

/-- `sum(1 for state in todo_states.values() if state)`. -/
def countTrue (m : List (String × Bool)) : Nat :=
  (m.filter (fun p => p.2)).length

/-! ### Ingestion parser (`Courses.py`) -/

/-- The inner loop of `extract_course_name`: the first line of the section
whose stripped form starts with `Course:`. -/
def findCourseLine (lines : List String) : Option String :=
  lines.find? (fun line => pyStartsWith (pyStrip line) "Course:")

/-- The section loop of `extract_course_name`: scan the `#`-split segments;
in each segment containing `Course Information`, look for a `Course:` line;
on a hit, return `line.replace('Course:', '').strip()`; otherwise keep
scanning; return `New Course` when the scan is exhausted. -/
def extractFromSections : List String → String
  | [] => "New Course"
  | sec :: rest =>
    if strContainsSub sec "Course Information" then
      match findCourseLine (strSplitOn sec "\n") with
      | some line => pyStrip (pyReplace line "Course:" "")
      | none => extractFromSections rest
    else extractFromSections rest

/-- `extract_course_name` (`Courses.py:141`): extract the course code/name
from the syllabus analysis. -/
def extract_course_name (analysis_text : String) : String :=
  extractFromSections (strSplitOn analysis_text "#")

/-- `row.split('|')`, strip each cell, drop the empty cells — shared by
`parse_todo_list` and `parse_weekly_schedule`. -/
def cellsOf (row : String) : List String :=
  ((strSplitOn row "|").map pyStrip).filter (fun cell => cell != "")

/-- The row filter of `parse_todo_list`. -/
def keep_todo_row (row : String) : Bool :=
  row != "" && !pyStartsWith row "|-" && !pyStartsWith row "| **" && strContainsChar row '|'

/-- `analysis.split('**To-do List**')`, falling back to
`analysis.split('To-do List')` when the decorated marker is absent. -/
def splitTodoParts (analysis : String) : List String :=
  let parts := strSplitOn analysis "**To-do List**"
  if parts.length < 2 then strSplitOn analysis "To-do List" else parts

/-- The stripped lines of the to-do section (`parts[1]`); `[]` when no
marker was found. -/
def todo_lines (analysis : String) : List String :=
  match splitTodoParts analysis with
  | _ :: todo_section :: _ => (strSplitOn todo_section "\n").map pyStrip
  | _ => []

/-- The data rows of the to-do section: its stripped lines, filtered. -/
def todo_rows (analysis : String) : List String :=
  (todo_lines analysis).filter keep_todo_row

/-- The per-row body of `parse_todo_list`: with at least three non-empty
cells and a name that is neither empty nor a header placeholder, build a
todo from the first three cells. -/
def todoOfRow (row : String) : Option Todo :=
  match cellsOf row with
  | name :: weight :: due_date :: _ =>
    if name != "" && name != "Name" && name != "**Name**" then
      some { name := name, weight := weight, due_date := due_date }
    else none
  | _ => none

/-- `parse_todo_list` (`Courses.py:156`): parse the todo list from the
analysis text (the Python append loop, rendered as `filterMap`). -/
def parse_todo_list (analysis : String) : List Todo :=
  (todo_rows analysis).filterMap todoOfRow

/-- The row filter of `parse_weekly_schedule`: shape checks plus the
percent-sign and case-insensitive evaluation-keyword exclusions. -/
def keep_weekly_row (row : String) : Bool :=
  row != "" && !pyStartsWith row "|-" && !pyStartsWith row "| **" && strContainsChar row '|'
    && !strContainsChar row '%'
    && !strContainsSub (pyLower row) "exam"
    && !strContainsSub (pyLower row) "assignment"
    && !strContainsSub (pyLower row) "project"

/-- `analysis.split('**Weekly Schedule**')`, falling back to
`analysis.split('Weekly Schedule')` when the decorated marker is absent. -/
def splitWeeklyParts (analysis : String) : List String :=
  let parts := strSplitOn analysis "**Weekly Schedule**"
  if parts.length < 2 then strSplitOn analysis "Weekly Schedule" else parts

/-- The stripped lines of the weekly-schedule section: the part of
`parts[1]` before `**To-do List**`; `[]` when no marker was found. -/
def weekly_lines (analysis : String) : List String :=
  match splitWeeklyParts analysis with
  | _ :: after_header :: _ =>
    (strSplitOn ((strSplitOn after_header "**To-do List**").headD "") "\n").map pyStrip
  | _ => []

/-- The data rows of the weekly-schedule section: its stripped lines,
filtered. -/
def weekly_rows (analysis : String) : List String :=
  (weekly_lines analysis).filter keep_weekly_row

/-- The per-row body of `parse_weekly_schedule`: with at least two
non-empty cells and a week label that is neither empty nor a header
placeholder, build an entry from the first two cells. -/
def entryOfRow (row : String) : Option WeeklyEntry :=
  match cellsOf row with
  | week :: content :: _ =>
    if week != "" && week != "Week" && week != "**Week**" then
      some { week := week, content := content }
    else none
  | _ => none

/-- `parse_weekly_schedule` (`Courses.py:196`): parse the weekly schedule
from the analysis text, excluding evaluation rows. -/
def parse_weekly_schedule (analysis : String) : List WeeklyEntry :=
  (weekly_rows analysis).filterMap entryOfRow

/-! ### Course lifecycle operations (`Courses.py`) -/

/-- The fresh record created by the `+ Add Course` button (`main`,
`Courses.py:506`). -/
def new_course : Course where
  name := "New Course"
  syllabus_text := none
  analysis := none
  file_uploaded := false
  todos := []
  todo_states := []
  weekly_schedule := []
  analysis_complete := false

/-- The todo-state initialisation loop of `course_tab` (`Courses.py:330`):
for each parsed todo whose name is not yet a key, set it to `False`. -/
def init_todo_states (states : List (String × Bool)) (todos : List Todo) :
    List (String × Bool) :=
  todos.foldl
    (fun st todo =>
      if (statesGet st todo.name).isSome then st else st ++ [(todo.name, false)])
    states

/-- The successful-ingestion branch of `course_tab` (`Courses.py:319`):
store the extracted name, source text, analysis and parsed tables, set both
flags, and initialise the todo states. -/
def ingest_course (c : Course) (text analysis : String) : Course :=
  { c with
    name := extract_course_name analysis
    syllabus_text := some text
    analysis := some analysis
    todos := parse_todo_list analysis
    weekly_schedule := parse_weekly_schedule analysis
    file_uploaded := true
    analysis_complete := true
    todo_states := init_todo_states c.todo_states (parse_todo_list analysis) }

/-- The `Reupload Syllabus` button of `create_text_menu`
(`Courses.py:255`): it sets `file_uploaded` to `False` and nothing else. -/
def reupload_course (c : Course) : Course :=
  { c with file_uploaded := false }

/-- The rename confirmation of `course_tab` (`Courses.py:289`). -/
def rename_course (c : Course) (new_name : String) : Course :=
  { c with name := new_name }

/-- The per-course effect of `update_todo_state` (`Courses.py:134`). -/
def toggle_course (c : Course) (todo_name : String) (state : Bool) : Course :=
  { c with todo_states := statesSet c.todo_states todo_name state }

/-- `update_todo_state` (`Courses.py:134`) on the course store: write the
todo state of the named course. -/
def update_todo_state (courses : List (String × Course)) (course_id todo_name : String)
    (state : Bool) : List (String × Course) :=
  courses.map (fun p => if p.1 == course_id then (p.1, toggle_course p.2 todo_name state) else p)

/-- The reachable states of one course record under the UI operations:
creation, successful ingestion (offered only while no file is uploaded),
rename / reupload (offered only from the uploaded header menu), and
checkbox toggling (offered only once the tables are displayed). -/
inductive ReachableCourse : Course → Prop where
  | created : ReachableCourse new_course
  | ingested (c : Course) (text analysis : String) :
      ReachableCourse c → c.file_uploaded = false →
      ReachableCourse (ingest_course c text analysis)
  | renamed (c : Course) (new_name : String) :
      ReachableCourse c → c.file_uploaded = true →
      ReachableCourse (rename_course c new_name)
  | reuploaded (c : Course) :
      ReachableCourse c → c.file_uploaded = true →
      ReachableCourse (reupload_course c)
  | toggled (c : Course) (todo_name : String) (state : Bool) :
      ReachableCourse c → c.file_uploaded = true → c.analysis_complete = true →
      ReachableCourse (toggle_course c todo_name state)

/-! ### Aggregator (`Home.py`) -/

/-- The three metrics of `display_overview_metrics` (`Home.py:10`). -/
structure OverviewMetrics where
  total_courses : Nat
  total_assignments : Nat
  completed_assignments : Nat
deriving DecidableEq

/-- `display_overview_metrics` (`Home.py:10`): course count, total
assignments over courses with a truthy (non-empty) todo list, completed
count over courses with a truthy todo-state mapping. -/
def display_overview_metrics (courses : List (String × Course)) : OverviewMetrics where
  total_courses := courses.length
  total_assignments :=
    ((courses.filter (fun p => !p.2.todos.isEmpty)).map (fun p => p.2.todos.length)).sum
  completed_assignments :=
    ((courses.filter (fun p => !p.2.todo_states.isEmpty)).map
      (fun p => countTrue p.2.todo_states)).sum

/-- One row of the upcoming-deadlines table built by
`display_upcoming_deadlines`. -/
structure DeadlineRow where
  course : String
  task : String
  weight : String
  due_date : String
deriving DecidableEq

/-- The row built for one pending todo of one course. -/
def row_of (course_name : String) (t : Todo) : DeadlineRow :=
  { course := course_name, task := t.name, weight := t.weight, due_date := t.due_date }

/-- The accumulation loop of `display_upcoming_deadlines` (`Home.py:32`):
for every course with a truthy todo list, append a row for each todo whose
completion state is falsy or absent. -/
def all_todos_of (courses : List (String × Course)) : List DeadlineRow :=
  courses.foldl
    (fun acc p =>
      if p.2.todos.isEmpty then acc
      else
        p.2.todos.foldl
          (fun acc2 todo =>
            if statesGetD p.2.todo_states todo.name then acc2
            else acc2 ++ [row_of p.2.name todo])
          acc)
    []

/-! #### Due-date parsing and rendering

`display_upcoming_deadlines` converts the due-date column with
`pd.to_datetime(..., format='%B %d, %Y')` — full English month name,
1-or-2-digit day, 4-digit year, with calendar validation — and renders it
back with `strftime('%B %d, %Y')`, which zero-pads the day. -/

/-- The twelve English month names matched by `%B`. -/
def monthNames : List String :=
  ["January", "February", "March", "April", "May", "June",
   "July", "August", "September", "October", "November", "December"]

/-- Gregorian leap-year rule used by the datetime validation. -/
def isLeapYear (y : Nat) : Bool :=
  (y % 4 == 0 && y % 100 != 0) || y % 400 == 0

/-- Days in a month, with the leap-year rule for February. -/
def daysInMonth (y m : Nat) : Nat :=
  if m == 2 then (if isLeapYear y then 29 else 28)
  else if m == 4 || m == 6 || m == 9 || m == 11 then 30
  else 31

/-- Numeric value of a digit string. -/
def natOfDigits (cs : List Char) : Nat :=
  cs.foldl (fun n c => 10 * n + (c.toNat - 48)) 0

/-- Match one of the month names (case-insensitively, as `%B` does) as a
prefix of the lowered text, returning the month number and the rest. -/
def matchMonth : Nat → List String → List Char → Option (Nat × List Char)
  | _, [], _ => none
  | m, name :: rest, t =>
    if isPrefixL (pyLower name).data t then some (m, t.drop (pyLower name).data.length)
    else matchMonth (m + 1) rest t

/-- Parse a due-date string under the fixed format `%B %d, %Y`, validating
the day against the calendar; `none` when the string does not match. The
result is `(year, month, day)`. -/
def parse_due_date (s : String) : Option (Nat × Nat × Nat) :=
  match matchMonth 1 monthNames (pyLower s).data with
  | none => none
  | some (m, rest) =>
    match rest with
    | ' ' :: rest2 =>
      let dayDigits := rest2.takeWhile Char.isDigit
      let rest3 := rest2.drop dayDigits.length
      if dayDigits.length == 1 || dayDigits.length == 2 then
        match rest3 with
        | ',' :: ' ' :: rest4 =>
          let yearDigits := rest4.takeWhile Char.isDigit
          if yearDigits.length == 4 && (rest4.drop 4).isEmpty then
            let d := natOfDigits dayDigits
            let y := natOfDigits yearDigits
            if 1 ≤ d ∧ d ≤ daysInMonth y m then some (y, m, d) else none
          else none
        | _ => none
      else none
    | _ => none

/-- Render a day number as `%d` does: zero-padded to two digits. -/
def padDay (d : Nat) : String :=
  if d < 10 then "0" ++ toString d else toString d

/-- Render a parsed `(year, month, day)` back with
`strftime('%B %d, %Y')`. -/
def render_due_date (p : Nat × Nat × Nat) : String :=
  monthNames.getD (p.2.1 - 1) "" ++ " " ++ padDay p.2.2 ++ ", " ++ toString p.1

/-- Sort key of a parsed date: strictly monotone in `(year, month, day)`
lexicographic order since month and day stay below 100. -/
def dateKey (p : Nat × Nat × Nat) : Nat :=
  p.1 * 10000 + p.2.1 * 100 + p.2.2

/-- The comparison `sort_values('Due Date')` sorts by. -/
def dateLe (a b : (Nat × Nat × Nat) × DeadlineRow) : Prop :=
  dateKey a.1 ≤ dateKey b.1

instance : DecidableRel dateLe :=
  fun a b => inferInstanceAs (Decidable (dateKey a.1 ≤ dateKey b.1))

instance : IsTotal ((Nat × Nat × Nat) × DeadlineRow) dateLe :=
  ⟨fun a b => Nat.le_total (dateKey a.1) (dateKey b.1)⟩

instance : IsTrans ((Nat × Nat × Nat) × DeadlineRow) dateLe :=
  ⟨fun _ _ _ h1 h2 => Nat.le_trans h1 h2⟩

/-- `pd.to_datetime` on the due-date column: all-or-nothing — the parsed
dates when every row parses, `none` (an exception, caught by the caller)
as soon as one row fails. -/
def attach_dates : List DeadlineRow → Option (List ((Nat × Nat × Nat) × DeadlineRow))
  | [] => some []
  | r :: rs =>
    match parse_due_date r.due_date, attach_dates rs with
    | some d, some rest => some ((d, r) :: rest)
    | _, _ => none

/-- `display_upcoming_deadlines` (`Home.py:30`): gather the pending rows;
try to parse every due date; on success sort ascending by date and render
each date back, on failure show the rows unsorted and unchanged.
(`sort_values` is modelled by a sort; the source does not fix an order for
rows with equal dates.) -/
def display_upcoming_deadlines (courses : List (String × Course)) : List DeadlineRow :=
  let all := all_todos_of courses
  match attach_dates all with
  | none => all
  | some pairs =>
    (List.insertionSort dateLe pairs).map
      (fun p => { p.2 with due_date := render_due_date p.1 })

/-- What `display_course_progress` (`Home.py:60`) shows for one course: a
progress bar with the completed fraction, or the `No tasks found` notice. -/
inductive ProgressView where
  | bar (progress : ℚ) (completed total : Nat)
  | noTasks
deriving DecidableEq

/-- The per-course body of `display_course_progress` (`Home.py:64`): the
completed/total fraction when the course has todos, the no-tasks notice
otherwise. -/
def course_progress (c : Course) : ProgressView :=
  let total_todos := c.todos.length
  let completed_todos := countTrue c.todo_states
  if 0 < total_todos then
    ProgressView.bar ((completed_todos : ℚ) / (total_todos : ℚ)) completed_todos total_todos
  else ProgressView.noTasks

/-! ### Specification-side readings, for comparison with the code

These definitions follow the words of the specification (not the code);
they exist to be compared with the code-derived definitions above. -/

/-- The specification's reading of course-name extraction: split on `#`,
take the FIRST segment containing `Course Information`, take within it the
first line whose trimmed form starts with `Course:`, and return that line
with the `Course:` PREFIX and surrounding whitespace stripped (and nothing
else removed); `New Course` when no such segment or line exists. -/
def extract_course_name_claim (t : String) : String :=
  match (strSplitOn t "#").find? (fun sec => strContainsSub sec "Course Information") with
  | none => "New Course"
  | some sec =>
    match (strSplitOn sec "\n").find? (fun line => pyStartsWith (pyStrip line) "Course:") with
    | none => "New Course"
    | some line => String.mk (stripL ((stripL line.data).drop 7))

/-- The amended reading of course-name extraction, faithful to the code:
scan ALL `#`-segments containing `Course Information` and return, for the
first one holding a line whose trimmed form starts with `Course:`, that
line with EVERY occurrence of `Course:` removed and the result trimmed;
`New Course` when the scan finds nothing. -/
def extract_course_name_amended (t : String) : String :=
  ((strSplitOn t "#").findSome? (fun sec =>
    if strContainsSub sec "Course Information" then
      ((strSplitOn sec "\n").find? (fun line => pyStartsWith (pyStrip line) "Course:")).map
        (fun line => pyStrip (pyReplace line "Course:" ""))
    else none)).getD "New Course"

/-- The rows one course contributes to the upcoming-deadlines table: one
row per deliverable whose completion entry is falsy or absent, none for a
completed one (and none at all for a course with a falsy todo list). -/
def pending_rows_of (p : String × Course) : List DeadlineRow :=
  if p.2.todos.isEmpty then []
  else (p.2.todos.filter (fun t => !statesGetD p.2.todo_states t.name)).map (row_of p.2.name)

/-! ### Concrete records used by witnesses and counterexamples -/

/-- An analysis text whose to-do table has one data row. -/
def analysisA : String :=
  "# Course Information\nCourse: CS 101 - Intro\n**To-do List**\n| A1 | 10% | January 15, 2025 |"

/-- A course in the Analyzed state, obtained by ingesting `analysisA` into
a fresh record. -/
def analyzed_example : Course :=
  ingest_course new_course "source text" analysisA

/-- A course whose completion mapping already holds a `True` entry before
ingestion. -/
def preset_course : Course :=
  { new_course with todo_states := [("A1", true)] }

/-- An analysis text whose to-do table has two data rows, `A1` and `B2`. -/
def analysisB : String :=
  "**To-do List**\n| A1 | 10% | January 15, 2025 |\n| B2 | 20% | N/A |"

/-- A course with two pending deliverables whose due dates both parse but
arrive in descending order. -/
def unsorted_course : Course :=
  { new_course with
    name := "CS 101"
    todos := [{ name := "Midterm", weight := "25%", due_date := "February 10, 2025" },
              { name := "A1", weight := "10%", due_date := "January 15, 2025" }]
    file_uploaded := true
    analysis_complete := true }

/-- A single-course store whose pending due dates all parse. -/
def storeA : List (String × Course) := [("id-1", unsorted_course)]

/-! ## Theorems -/

/-- The section scan of `extract_course_name` is the first hit of a
per-section partial extraction. -/
theorem extractFromSections_eq_findSome (secs : List String) :
    extractFromSections secs =
      (secs.findSome? (fun sec =>
        if strContainsSub sec "Course Information" then
          ((strSplitOn sec "\n").find? (fun line => pyStartsWith (pyStrip line) "Course:")).map
            (fun line => pyStrip (pyReplace line "Course:" ""))
        else none)).getD "New Course" := by
  induction secs with
  | nil => rfl
  | cons s rest ih =>
    rw [extractFromSections, List.findSome?_cons]
    by_cases h : strContainsSub s "Course Information" = true
    · rw [if_pos h, if_pos h]
      cases hf : findCourseLine (strSplitOn s "\n") with
      | none => rw [findCourseLine] at hf; rw [hf]; exact ih
      | some line => rw [findCourseLine] at hf; rw [hf]; simp
    · rw [if_neg h, if_neg h]
      exact ih

/-- C4 (counterexample): on a text whose first `Course Information` segment
has no `Course:` line and whose second has a line with two `Course:`
occurrences, the code keeps scanning and removes both occurrences, while
the claimed extraction stops at the first segment; on a text whose
matching line has two occurrences, the code removes both while the claim
strips only the prefix. -/
theorem extract_course_name_claim_cex :
    extract_course_name "#Course Information\nnothing#Course Information\nCourse: Course: X"
      = "X" ∧
    extract_course_name_claim "#Course Information\nnothing#Course Information\nCourse: Course: X"
      = "New Course" ∧
    extract_course_name "#Course Information\nCourse: Course: X" = "X" ∧
    extract_course_name_claim "#Course Information\nCourse: Course: X" = "Course: X" := by
  refine ⟨by decide, by decide, by decide, by decide⟩

/-- C4 (amended): course-name extraction scans all `#`-segments containing
`Course Information` and returns, for the first one holding a line whose
trimmed form starts with `Course:`, that line with every occurrence of
`Course:` removed and the result trimmed; `New Course` otherwise. -/
theorem extract_course_name_eq_amended (t : String) :
    extract_course_name t = extract_course_name_amended t := by
  rw [extract_course_name, extract_course_name_amended]
  exact extractFromSections_eq_findSome (strSplitOn t "#")

/-- C1 (counterexample): reupload on a course in the Analyzed state leaves
the analysis-complete flag set and the parsed data in place, contrary to
the claimed clearing. -/
theorem reupload_course_cex :
    analyzed_example.file_uploaded = true ∧
    analyzed_example.analysis_complete = true ∧
    (reupload_course analyzed_example).analysis_complete = true ∧
    (reupload_course analyzed_example).todos ≠ [] ∧
    (reupload_course analyzed_example).analysis ≠ none := by
  refine ⟨rfl, rfl, rfl, by decide, by decide⟩

/-- C1 (amended): for every course record in the Analyzed state, the
reupload operation clears the file-uploaded flag and nothing else: the
analysis-complete flag, the parsed data (weekly schedule, deliverables, raw
analysis text, raw source text), the completion-state mapping and the
course name are all unchanged. -/
theorem reupload_clears_only_file_uploaded (c : Course)
    (_h1 : c.file_uploaded = true) (_h2 : c.analysis_complete = true) :
    (reupload_course c).file_uploaded = false ∧
    (reupload_course c).analysis_complete = c.analysis_complete ∧
    (reupload_course c).todos = c.todos ∧
    (reupload_course c).weekly_schedule = c.weekly_schedule ∧
    (reupload_course c).analysis = c.analysis ∧
    (reupload_course c).syllabus_text = c.syllabus_text ∧
    (reupload_course c).todo_states = c.todo_states ∧
    (reupload_course c).name = c.name :=
  ⟨rfl, rfl, rfl, rfl, rfl, rfl, rfl, rfl⟩

/-- Witness for the amended C1 theorem at the concrete Analyzed course. -/
theorem reupload_clears_only_file_uploaded_witness :
    analyzed_example.file_uploaded = true ∧
    analyzed_example.analysis_complete = true ∧
    ((reupload_course analyzed_example).file_uploaded = false ∧
     (reupload_course analyzed_example).analysis_complete = analyzed_example.analysis_complete ∧
     (reupload_course analyzed_example).todos = analyzed_example.todos ∧
     (reupload_course analyzed_example).weekly_schedule = analyzed_example.weekly_schedule ∧
     (reupload_course analyzed_example).analysis = analyzed_example.analysis ∧
     (reupload_course analyzed_example).syllabus_text = analyzed_example.syllabus_text ∧
     (reupload_course analyzed_example).todo_states = analyzed_example.todo_states ∧
     (reupload_course analyzed_example).name = analyzed_example.name) :=
  ⟨rfl, rfl, reupload_clears_only_file_uploaded analyzed_example rfl rfl⟩

/-- C3 (counterexample): the state reached by create, successful ingestion,
then reupload has the file-uploaded flag cleared but the analysis-complete
flag still set, so the two flags are not equal in every reachable state. -/
theorem flag_equality_cex :
    ReachableCourse (reupload_course (ingest_course new_course "t" "a")) ∧
    (reupload_course (ingest_course new_course "t" "a")).file_uploaded = false ∧
    (reupload_course (ingest_course new_course "t" "a")).analysis_complete = true :=
  ⟨ReachableCourse.reuploaded _
      (ReachableCourse.ingested _ _ _ ReachableCourse.created rfl) rfl,
    rfl, rfl⟩

/-- C3 (amended): in every reachable state of a course record, the
file-uploaded flag implies the analysis-complete flag; the success path
sets the two flags together, but reupload clears only the file-uploaded
flag, so the converse implication fails. -/
theorem reachable_uploaded_implies_analyzed (c : Course) (h : ReachableCourse c) :
    c.file_uploaded = true → c.analysis_complete = true := by
  induction h with
  | created => intro hu; exact absurd hu (by decide)
  | ingested c text analysis hr hf ih => intro _; rfl
  | renamed c new_name hr hf ih => intro hu; exact ih hu
  | reuploaded c hr hf ih => intro hu; exact absurd hu (by simp [reupload_course])
  | toggled c todo_name state hr hf ha ih => intro _; exact ha

/-- Witness for the amended C3 theorem at a concrete ingested course. -/
theorem reachable_uploaded_implies_analyzed_witness :
    ReachableCourse (ingest_course new_course "t" "a") ∧
    (ingest_course new_course "t" "a").file_uploaded = true ∧
    (ingest_course new_course "t" "a").analysis_complete = true :=
  ⟨ReachableCourse.ingested _ _ _ ReachableCourse.created rfl, rfl,
    reachable_uploaded_implies_analyzed _
      (ReachableCourse.ingested _ _ _ ReachableCourse.created rfl) rfl⟩

/-- When no `#`-segment contains the `Course Information` marker, the
section scan falls through to the default. -/
theorem extractFromSections_default (secs : List String)
    (h : ∀ sec ∈ secs, strContainsSub sec "Course Information" = false) :
    extractFromSections secs = "New Course" := by
  induction secs with
  | nil => rfl
  | cons s rest ih =>
    rw [extractFromSections]
    rw [h s (by simp)]
    simp only [Bool.false_eq_true, if_false]
    exact ih fun sec hs => h sec (by simp [hs])

/-- C5: the parse operations are total and default-valued: when the
`Course Information` marker is absent the name defaults to `New Course`;
when both forms of the `To-do List` (resp. `Weekly Schedule`) marker are
absent the corresponding list is empty; and whenever the to-do section has
zero data rows the deliverable list is empty. (The embedding is a total
function, matching the never-throws contract.) -/
theorem parse_defaults (text : String) :
    ((∀ sec ∈ strSplitOn text "#", strContainsSub sec "Course Information" = false) →
      extract_course_name text = "New Course") ∧
    ((strSplitOn text "**To-do List**").length < 2 →
      (strSplitOn text "To-do List").length < 2 → parse_todo_list text = []) ∧
    ((strSplitOn text "**Weekly Schedule**").length < 2 →
      (strSplitOn text "Weekly Schedule").length < 2 → parse_weekly_schedule text = []) ∧
    (todo_rows text = [] → parse_todo_list text = []) := by
  refine ⟨?_, ?_, ?_, ?_⟩
  · intro h
    rw [extract_course_name]
    exact extractFromSections_default _ h
  · intro h1 h2
    rw [parse_todo_list, todo_rows, todo_lines, splitTodoParts]
    rw [if_pos h1]
    cases hl : strSplitOn text "To-do List" with
    | nil => rfl
    | cons a t =>
      cases t with
      | nil => rfl
      | cons b t2 => rw [hl] at h2; simp at h2; omega
  · intro h1 h2
    rw [parse_weekly_schedule, weekly_rows, weekly_lines, splitWeeklyParts]
    rw [if_pos h1]
    cases hl : strSplitOn text "Weekly Schedule" with
    | nil => rfl
    | cons a t =>
      cases t with
      | nil => rfl
      | cons b t2 => rw [hl] at h2; simp at h2; omega
  · intro h
    rw [parse_todo_list, h, List.filterMap_nil]

/-- Witness for the C5 theorem at a marker-free text. -/
theorem parse_defaults_witness :
    (∀ sec ∈ strSplitOn "hello" "#", strContainsSub sec "Course Information" = false) ∧
    (strSplitOn "hello" "**To-do List**").length < 2 ∧
    (strSplitOn "hello" "To-do List").length < 2 ∧
    todo_rows "hello" = [] ∧
    extract_course_name "hello" = "New Course" ∧
    parse_todo_list "hello" = [] ∧
    parse_weekly_schedule "hello" = [] :=
  ⟨by decide, by decide, by decide, by decide,
    (parse_defaults "hello").1 (by decide),
    (parse_defaults "hello").2.1 (by decide) (by decide),
    (parse_defaults "hello").2.2.1 (by decide) (by decide)⟩

/-- C6: a line is kept among the weekly-schedule data rows only if it is
non-empty, does not start with `|-`, does not start with `| **`, contains
a `|`, contains no `%`, and contains none of the case-insensitive
substrings `exam`, `assignment`, `project`; consequently any line holding
one of those substrings is excluded. -/
theorem weekly_rows_only_if (analysis row : String) (h : row ∈ weekly_rows analysis) :
    row ≠ "" ∧ pyStartsWith row "|-" = false ∧ pyStartsWith row "| **" = false ∧
    strContainsChar row '|' = true ∧ strContainsChar row '%' = false ∧
    strContainsSub (pyLower row) "exam" = false ∧
    strContainsSub (pyLower row) "assignment" = false ∧
    strContainsSub (pyLower row) "project" = false := by
  have hk : keep_weekly_row row = true := (List.mem_filter.mp h).2
  rw [keep_weekly_row] at hk
  simp only [Bool.and_eq_true, Bool.not_eq_true', bne_iff_ne, ne_eq] at hk
  exact ⟨hk.1.1.1.1.1.1.1, hk.1.1.1.1.1.1.2, hk.1.1.1.1.1.2, hk.1.1.1.1.2,
    hk.1.1.1.2, hk.1.1.2, hk.1.2, hk.2⟩

/-- Witness for the C6 theorem at a concrete surviving row. -/
theorem weekly_rows_only_if_witness :
    "| Week 1 | Intro |" ∈ weekly_rows "**Weekly Schedule**\n| Week 1 | Intro |" ∧
    ("| Week 1 | Intro |" ≠ "" ∧
      pyStartsWith "| Week 1 | Intro |" "|-" = false ∧
      pyStartsWith "| Week 1 | Intro |" "| **" = false ∧
      strContainsChar "| Week 1 | Intro |" '|' = true ∧
      strContainsChar "| Week 1 | Intro |" '%' = false ∧
      strContainsSub (pyLower "| Week 1 | Intro |") "exam" = false ∧
      strContainsSub (pyLower "| Week 1 | Intro |") "assignment" = false ∧
      strContainsSub (pyLower "| Week 1 | Intro |") "project" = false) :=
  ⟨by decide,
    weekly_rows_only_if "**Weekly Schedule**\n| Week 1 | Intro |" "| Week 1 | Intro |"
      (by decide)⟩

/-- The in-place update of `statesSet` keeps every key. -/
theorem statesSet_map_key (p : String × Bool) (nm : String) (v : Bool) :
    (if p.1 == nm then (p.1, v) else p).1 = p.1 := by
  split <;> rfl

/-- Looking a key up after the in-place update of `statesSet` finds the
same binding, with the update applied to it. -/
theorem find_statesSet_map (st : List (String × Bool)) (nm k : String) (v : Bool) :
    (st.map (fun p => if p.1 == nm then (p.1, v) else p)).find? (fun p => p.1 == k)
      = (st.find? (fun p => p.1 == k)).map (fun p => if p.1 == nm then (p.1, v) else p) := by
  induction st with
  | nil => rfl
  | cons p rest ih =>
    simp only [List.map_cons, List.find?_cons, statesSet_map_key]
    cases h : p.1 == k with
    | true => simp
    | false => simpa using ih

/-- Python dict-write semantics of `statesSet` as seen through `statesGet`:
the written key now maps to the written value, every other key is
unchanged. -/
theorem statesGet_statesSet (st : List (String × Bool)) (nm k : String) (v : Bool) :
    statesGet (statesSet st nm v) k = if k = nm then some v else statesGet st k := by
  rw [statesSet]
  by_cases hp : (st.find? (fun p => p.1 == nm)).isSome = true
  · rw [if_pos hp, statesGet, find_statesSet_map]
    by_cases hk : k = nm
    · subst hk
      obtain ⟨p0, hp0⟩ := Option.isSome_iff_exists.mp hp
      have hkey := List.find?_some hp0
      simp only [beq_iff_eq] at hkey
      rw [hp0]
      simp [hkey]
    · rw [statesGet, if_neg hk]
      cases hf : st.find? (fun p => p.1 == k) with
      | none => rfl
      | some p0 =>
        have hkey := List.find?_some hf
        simp only [beq_iff_eq] at hkey
        simp [hkey, hk]
  · rw [if_neg hp]
    by_cases hk : k = nm
    · subst hk
      have hnone : st.find? (fun p => p.1 == k) = none :=
        Option.not_isSome_iff_eq_none.mp hp
      rw [statesGet, List.find?_append, hnone, if_pos rfl]
      simp
    · rw [statesGet, List.find?_append, if_neg hk, statesGet]
      cases hf : st.find? (fun p => p.1 == k) with
      | none =>
        have hnk : ((nm, v).1 == k) = false := by
          simp only [Bool.eq_false_iff, ne_eq, beq_iff_eq]
          exact fun hn => hk hn.symm
        simp [hnk]
      | some p0 => simp

/-- `statesGetD` version of `statesGet_statesSet`. -/
theorem statesGetD_statesSet (st : List (String × Bool)) (nm k : String) (v : Bool) :
    statesGetD (statesSet st nm v) k = if k = nm then v else statesGetD st k := by
  rw [statesGetD, statesGet_statesSet]
  by_cases hk : k = nm <;> simp [hk, statesGetD]

/-- The inner append loop of `display_upcoming_deadlines` over one
course's todos, as a filter-and-map. -/
theorem all_todos_inner (nm : String) (st : List (String × Bool)) (todos : List Todo)
    (acc : List DeadlineRow) :
    todos.foldl
        (fun acc2 todo =>
          if statesGetD st todo.name then acc2 else acc2 ++ [row_of nm todo])
        acc
      = acc ++ (todos.filter (fun t => !statesGetD st t.name)).map (row_of nm) := by
  induction todos generalizing acc with
  | nil => simp
  | cons t ts ih =>
    simp only [List.foldl_cons, List.filter_cons]
    cases h : statesGetD st t.name with
    | true => simp [ih]
    | false => simp [ih]

/-- The outer loop of `display_upcoming_deadlines` over the course store,
as a flat map of per-course pending rows. -/
theorem all_todos_outer (courses : List (String × Course)) (acc : List DeadlineRow) :
    courses.foldl
        (fun acc p =>
          if p.2.todos.isEmpty then acc
          else
            p.2.todos.foldl
              (fun acc2 todo =>
                if statesGetD p.2.todo_states todo.name then acc2
                else acc2 ++ [row_of p.2.name todo])
              acc)
        acc
      = acc ++ courses.flatMap pending_rows_of := by
  induction courses generalizing acc with
  | nil => simp
  | cons p ps ih =>
    simp only [List.foldl_cons, List.flatMap_cons]
    by_cases h : p.2.todos.isEmpty = true
    · rw [if_pos h, ih, pending_rows_of, if_pos h]
      simp
    · rw [if_neg h, all_todos_inner, ih, pending_rows_of, if_neg h]
      simp [List.append_assoc]

/-- C7: the upcoming-deadlines accumulation emits, course by course,
exactly one row per deliverable whose completion entry is falsy or absent
and no row for a completed one; and toggling a deliverable's completion
entry to `True` removes exactly the deliverables of that name from the
pending set used by the next computation. -/
theorem upcoming_includes_pending_only (courses : List (String × Course))
    (c : Course) (todo_name : String) :
    all_todos_of courses = courses.flatMap pending_rows_of ∧
    (toggle_course c todo_name true).todos.filter
        (fun t => !statesGetD (toggle_course c todo_name true).todo_states t.name)
      = c.todos.filter (fun t => t.name != todo_name && !statesGetD c.todo_states t.name) := by
  constructor
  · rw [all_todos_of]
    simpa using all_todos_outer courses []
  · rw [toggle_course]
    apply List.filter_congr
    intro t _
    rw [statesGetD_statesSet]
    by_cases h : t.name = todo_name
    · simp [h]
    · simp [h]

/-- C8: for a course with zero deliverables the progress display is the
no-tasks notice and no division is performed; for a course with at least
one deliverable it is the completed-count over total-count fraction, whose
divisor is non-zero. -/
theorem course_progress_no_division (c : Course) :
    (c.todos = [] → course_progress c = ProgressView.noTasks) ∧
    (c.todos ≠ [] →
      ((c.todos.length : ℚ) ≠ 0 ∧
        course_progress c
          = ProgressView.bar ((countTrue c.todo_states : ℚ) / (c.todos.length : ℚ))
              (countTrue c.todo_states) c.todos.length)) := by
  constructor
  · intro h
    rw [course_progress, h]
    rfl
  · intro h
    have hl : 0 < c.todos.length := List.length_pos.mpr h
    refine ⟨?_, ?_⟩
    · exact_mod_cast Nat.pos_iff_ne_zero.mp hl
    · rw [course_progress]
      exact if_pos hl

/-- Witness for the C8 theorem: the no-tasks branch at the fresh record,
the division branch at a course with two deliverables. -/
theorem course_progress_no_division_witness :
    (new_course.todos = [] ∧ course_progress new_course = ProgressView.noTasks) ∧
    (unsorted_course.todos ≠ [] ∧
      course_progress unsorted_course
        = ProgressView.bar ((countTrue unsorted_course.todo_states : ℚ)
            / (unsorted_course.todos.length : ℚ))
            (countTrue unsorted_course.todo_states) unsorted_course.todos.length) :=
  ⟨⟨rfl, (course_progress_no_division new_course).1 rfl⟩,
    ⟨by decide, ((course_progress_no_division unsorted_course).2 (by decide)).2⟩⟩

/-- Dropping the truthiness filter from the completed-count sum changes
nothing: a course with an empty completion mapping contributes zero. -/
theorem completed_sum_filter (courses : List (String × Course)) :
    ((courses.filter (fun p => !p.2.todo_states.isEmpty)).map
        (fun p => countTrue p.2.todo_states)).sum
      = (courses.map (fun p => countTrue p.2.todo_states)).sum := by
  induction courses with
  | nil => rfl
  | cons p ps ih =>
    simp only [List.filter_cons, List.map_cons, List.sum_cons]
    by_cases h : p.2.todo_states.isEmpty = true
    · have hz : countTrue p.2.todo_states = 0 := by
        rw [List.isEmpty_iff] at h
        rw [countTrue, h]
        rfl
      simp [h, hz, ih]
    · simp only [h, Bool.not_false, if_pos]
      simp [ih]

/-- C9: the overview metrics are the number of course records, the sum of
deliverable-list lengths over the courses with a non-empty deliverable
list, and the sum over all courses of the count of `True` values in the
completion mapping (courses with no deliverables or an empty mapping
contribute zero). -/
theorem overview_metrics_spec (courses : List (String × Course)) :
    (display_overview_metrics courses).total_courses = courses.length ∧
    (display_overview_metrics courses).total_assignments
      = ((courses.filter (fun p => !p.2.todos.isEmpty)).map
          (fun p => p.2.todos.length)).sum ∧
    (display_overview_metrics courses).completed_assignments
      = (courses.map (fun p => countTrue p.2.todo_states)).sum :=
  ⟨rfl, rfl, completed_sum_filter courses⟩

/-- Appending a fresh binding does not disturb an existing one. -/
theorem statesGet_append_single (st : List (String × Bool)) (k nm : String) (v w : Bool)
    (h : statesGet st k = some v) :
    statesGet (st ++ [(nm, w)]) k = some v := by
  rw [statesGet, List.find?_append]
  rw [statesGet] at h
  cases hf : st.find? (fun p => p.1 == k) with
  | none => rw [hf] at h; simp at h
  | some p0 => rw [hf] at h; simpa using h

/-- Appending a fresh binding resolves an absent key only to the appended
binding. -/
theorem statesGet_append_single_none (st : List (String × Bool)) (k nm : String) (w : Bool)
    (h : statesGet st k = none) :
    statesGet (st ++ [(nm, w)]) k = if k = nm then some w else none := by
  rw [statesGet, List.find?_append]
  rw [statesGet] at h
  cases hf : st.find? (fun p => p.1 == k) with
  | some p0 => rw [hf] at h; simp at h
  | none =>
    by_cases hk : k = nm
    · subst hk
      simp
    · have hnk : ((nm, w).1 == k) = false := by
        simp only [Bool.eq_false_iff, ne_eq, beq_iff_eq]
        exact fun hn => hk hn.symm
      simp [hnk, hk]

/-- The todo-state initialisation loop preserves every existing binding. -/
theorem init_todo_states_preserves (todos : List Todo) :
    ∀ (st : List (String × Bool)) (k : String) (v : Bool),
      statesGet st k = some v → statesGet (init_todo_states st todos) k = some v := by
  induction todos with
  | nil => intro st k v h; exact h
  | cons t ts ih =>
    intro st k v h
    rw [init_todo_states, List.foldl_cons]
    by_cases hp : (statesGet st t.name).isSome = true
    · rw [if_pos hp]
      exact ih st k v h
    · rw [if_neg hp]
      exact ih _ k v (statesGet_append_single st k t.name v false h)

/-- After the todo-state initialisation loop, every processed todo's name
is bound. -/
theorem init_todo_states_mem (todos : List Todo) :
    ∀ (st : List (String × Bool)), ∀ todo ∈ todos,
      (statesGet (init_todo_states st todos) todo.name).isSome = true := by
  induction todos with
  | nil => intro st todo h; cases h
  | cons t ts ih =>
    intro st todo h
    rw [init_todo_states, List.foldl_cons]
    rcases List.mem_cons.mp h with h1 | h1
    · subst h1
      by_cases hp : (statesGet st todo.name).isSome = true
      · rw [if_pos hp]
        obtain ⟨v, hv⟩ := Option.isSome_iff_exists.mp hp
        rw [Option.isSome_iff_exists]
        exact ⟨v, init_todo_states_preserves ts st todo.name v hv⟩
      · rw [if_neg hp]
        have habs : statesGet st todo.name = none := Option.not_isSome_iff_eq_none.mp hp
        have happ : statesGet (st ++ [(todo.name, false)]) todo.name = some false := by
          rw [statesGet_append_single_none st todo.name todo.name false habs, if_pos rfl]
        rw [Option.isSome_iff_exists]
        exact ⟨false, init_todo_states_preserves ts _ todo.name false happ⟩
    · by_cases hp : (statesGet st t.name).isSome = true
      · rw [if_pos hp]
        exact ih st todo h1
      · rw [if_neg hp]
        exact ih _ todo h1

/-- The todo-state initialisation loop binds a previously absent key, if at
all, only to `False`. -/
theorem init_todo_states_new (todos : List Todo) :
    ∀ (st : List (String × Bool)) (k : String),
      (statesGet st k = none ∨ statesGet st k = some false) →
      (statesGet (init_todo_states st todos) k = none ∨
        statesGet (init_todo_states st todos) k = some false) := by
  induction todos with
  | nil => intro st k h; exact h
  | cons t ts ih =>
    intro st k h
    rw [init_todo_states, List.foldl_cons]
    by_cases hp : (statesGet st t.name).isSome = true
    · rw [if_pos hp]
      exact ih st k h
    · rw [if_neg hp]
      refine ih _ k ?_
      rcases h with h1 | h1
      · rw [statesGet_append_single_none st k t.name false h1]
        by_cases hk : k = t.name
        · right; rw [if_pos hk]
        · left; rw [if_neg hk]
      · right
        exact statesGet_append_single st k t.name false false h1

/-- C10: after a successful ingestion, every parsed deliverable name is a
key of the completion mapping; every binding present before ingestion is
preserved; and a name absent before ingestion can only have been bound to
`False`. -/
theorem ingest_course_todo_states (c : Course) (text analysis : String) :
    (∀ todo ∈ (ingest_course c text analysis).todos,
        (statesGet (ingest_course c text analysis).todo_states todo.name).isSome = true) ∧
    (∀ (k : String) (v : Bool), statesGet c.todo_states k = some v →
        statesGet (ingest_course c text analysis).todo_states k = some v) ∧
    (∀ (k : String) (v : Bool), statesGet c.todo_states k = none →
        statesGet (ingest_course c text analysis).todo_states k = some v → v = false) := by
  refine ⟨?_, ?_, ?_⟩
  · intro todo h
    exact init_todo_states_mem (parse_todo_list analysis) c.todo_states todo h
  · intro k v h
    exact init_todo_states_preserves (parse_todo_list analysis) c.todo_states k v h
  · intro k v habs hsome
    have hsome2 : statesGet (init_todo_states c.todo_states (parse_todo_list analysis)) k
        = some v := hsome
    rcases init_todo_states_new (parse_todo_list analysis) c.todo_states k (Or.inl habs)
      with h1 | h1
    · rw [hsome2] at h1
      cases h1
    · rw [hsome2] at h1
      exact Option.some.inj h1

/-- Witness for the C10 theorem: ingesting `analysisB` into a course whose
mapping already holds `("A1", True)` keeps that binding, and binds the new
name `B2`. -/
theorem ingest_course_todo_states_witness :
    statesGet preset_course.todo_states "A1" = some true ∧
    statesGet (ingest_course preset_course "t" analysisB).todo_states "A1" = some true ∧
    ({ name := "B2", weight := "20%", due_date := "N/A" } : Todo)
        ∈ (ingest_course preset_course "t" analysisB).todos ∧
    (statesGet (ingest_course preset_course "t" analysisB).todo_states "B2").isSome = true :=
  ⟨rfl,
    (ingest_course_todo_states preset_course "t" analysisB).2.1 "A1" true rfl,
    by decide,
    (ingest_course_todo_states preset_course "t" analysisB).1
      { name := "B2", weight := "20%", due_date := "N/A" } (by decide)⟩

/-- The all-or-nothing date conversion fails as soon as one row's due date
fails to parse. -/
theorem attach_dates_none (rows : List DeadlineRow)
    (h : ∃ r ∈ rows, parse_due_date r.due_date = none) :
    attach_dates rows = none := by
  induction rows with
  | nil => simp at h
  | cons r rs ih =>
    obtain ⟨r0, hr0, hn⟩ := h
    rw [attach_dates]
    rcases List.mem_cons.mp hr0 with h1 | h1
    · subst h1
      rw [hn]
    · rw [ih ⟨r0, h1, hn⟩]
      cases parse_due_date r.due_date <;> rfl

/-- When every row's due date parses, the all-or-nothing date conversion
returns the rows paired with their parsed dates, in order. -/
theorem attach_dates_some (rows : List DeadlineRow)
    (h : ∀ r ∈ rows, (parse_due_date r.due_date).isSome = true) :
    ∃ pairs : List ((Nat × Nat × Nat) × DeadlineRow),
      attach_dates rows = some pairs ∧ pairs.map Prod.snd = rows ∧
      ∀ p ∈ pairs, parse_due_date p.2.due_date = some p.1 := by
  induction rows with
  | nil => exact ⟨[], rfl, rfl, by simp⟩
  | cons r rs ih =>
    obtain ⟨d, hd⟩ := Option.isSome_iff_exists.mp (h r (by simp))
    obtain ⟨pairs, h1, h2, h3⟩ := ih fun x hx => h x (List.mem_cons_of_mem r hx)
    refine ⟨(d, r) :: pairs, ?_, ?_, ?_⟩
    · rw [attach_dates, hd, h1]
    · rw [List.map_cons, h2]
    · intro p hp
      rcases List.mem_cons.mp hp with h4 | h4
      · subst h4
        exact hd
      · exact h3 p h4

/-- C2: when every pending row's due-date string parses under the fixed
`Month D, YYYY` format, the upcoming-deadlines output lists the pending
rows in ascending order of parsed date, each date re-rendered in that
format (day zero-padded, as `strftime` does); when at least one row fails
to parse, the output is exactly the per-course, per-deliverable insertion
order, with no partial sorting and no date rewritten. -/
theorem upcoming_deadlines_sorting (courses : List (String × Course)) :
    ((∀ r ∈ all_todos_of courses, (parse_due_date r.due_date).isSome = true) →
      ∃ pairs : List ((Nat × Nat × Nat) × DeadlineRow),
        (pairs.map Prod.snd).Perm (all_todos_of courses) ∧
        (∀ p ∈ pairs, parse_due_date p.2.due_date = some p.1) ∧
        List.Sorted dateLe pairs ∧
        display_upcoming_deadlines courses
          = pairs.map (fun p => { p.2 with due_date := render_due_date p.1 })) ∧
    ((∃ r ∈ all_todos_of courses, parse_due_date r.due_date = none) →
      display_upcoming_deadlines courses = all_todos_of courses) := by
  constructor
  · intro h
    obtain ⟨pairs0, h1, h2, h3⟩ := attach_dates_some _ h
    have hperm := List.perm_insertionSort dateLe pairs0
    refine ⟨List.insertionSort dateLe pairs0, ?_, ?_, ?_, ?_⟩
    · rw [← h2]
      exact hperm.map Prod.snd
    · intro p hp
      exact h3 p (hperm.mem_iff.mp hp)
    · exact List.sorted_insertionSort dateLe pairs0
    · rw [display_upcoming_deadlines, h1]
  · intro h
    rw [display_upcoming_deadlines, attach_dates_none _ h]

/-- Witness for the C2 theorem at a store whose two pending rows arrive in
descending date order. -/
theorem upcoming_deadlines_sorting_witness :
    (∀ r ∈ all_todos_of storeA, (parse_due_date r.due_date).isSome = true) ∧
    (∃ pairs : List ((Nat × Nat × Nat) × DeadlineRow),
      (pairs.map Prod.snd).Perm (all_todos_of storeA) ∧
      (∀ p ∈ pairs, parse_due_date p.2.due_date = some p.1) ∧
      List.Sorted dateLe pairs ∧
      display_upcoming_deadlines storeA
        = pairs.map (fun p => { p.2 with due_date := render_due_date p.1 })) :=
  ⟨by decide, (upcoming_deadlines_sorting storeA).1 (by decide)⟩

end SyllaBud
